import Mathlib

/-!
Shallow embedding of the cpuinfo parser (src/src/lib.rs), a nom-based parser
for the textual output of /proc/cpuinfo.  Input strings are modelled as
`List Char`; every nom parser becomes a function `Input → PRes α` where
`PRes` mirrors nom's `IResult`: `ok value rest` for `Ok((rest, value))`,
`err` for a recoverable `Err::Error`, and `fail` for an unrecoverable
`Err::Failure` (produced only by the `cut` inside nom's float recognizer).
Machine integers (`u32`) are modelled as `Nat` with explicit `% 2 ^ 32`
where the Rust code can overflow, and with explicit bound checks where the
Rust decoders reject overflow.  The two `f32` fields (`cpu MHz`,
`bogomips`) store the recognized numeral text: the decimal-to-binary
conversion of `f32` is outside this embedding, and no claim depends on the
numeric float value.
-/

set_option maxRecDepth 100000

set_option maxHeartbeats 2000000

abbrev Input := List Char

/-- Result of running a parser, mirroring nom's `IResult`:
`ok v rest` is `Ok((rest, v))`, `err` is `Err(Err::Error(_))`, and
`fail` is `Err(Err::Failure(_))`. -/
inductive PRes (α : Type) where
  | ok (v : α) (rest : Input)
  | err
  | fail
deriving DecidableEq, Repr

abbrev Parser (α : Type) := Input → PRes α

/-- Sequencing of parser results, mirroring Rust's `?` on an `IResult`:
both error kinds propagate unchanged. -/
def pbind {α β : Type} (r : PRes α) (f : α → Input → PRes β) : PRes β :=
  match r with
  | .ok a rest => f a rest
  | .err => .err
  | .fail => .fail

/-- nom's `map` combinator. -/
def pmap {α β : Type} (p : Parser α) (f : α → β) : Parser β := fun i =>
  match p i with
  | .ok a r => .ok (f a) r
  | .err => .err
  | .fail => .fail

/-- nom's `map_res` combinator: the fallible function is modelled as
returning `Option`; a `none` becomes a recoverable error. -/
def map_res {α β : Type} (p : Parser α) (f : α → Option β) : Parser β := fun i =>
  match p i with
  | .ok a r =>
    match f a with
    | some b => .ok b r
    | none => .err
  | .err => .err
  | .fail => .fail

/-- nom's `opt` combinator: a recoverable error yields `none` without
consuming input; an unrecoverable failure propagates. -/
def opt {α : Type} (p : Parser α) : Parser (Option α) := fun i =>
  match p i with
  | .ok a r => .ok (some a) r
  | .err => .ok none i
  | .fail => .fail

/-- nom's `pair` combinator (also the sequencing underlying `tuple`). -/
def pair {α β : Type} (p : Parser α) (q : Parser β) : Parser (α × β) := fun i =>
  match p i with
  | .ok a r =>
    match q r with
    | .ok b s => .ok (a, b) s
    | .err => .err
    | .fail => .fail
  | .err => .err
  | .fail => .fail

/-- nom's `preceded` combinator. -/
def preceded {α β : Type} (p : Parser α) (q : Parser β) : Parser β :=
  pmap (pair p q) (fun x => x.2)

/-- nom's `terminated` combinator. -/
def terminated {α β : Type} (p : Parser α) (q : Parser β) : Parser α :=
  pmap (pair p q) (fun x => x.1)

/-- nom's `delimited` combinator. -/
def delimited {α β γ : Type} (p : Parser α) (q : Parser β) (r : Parser γ) : Parser β :=
  preceded p (terminated q r)

/-- nom's `separated_pair` combinator. -/
def separated_pair {α σ β : Type} (p : Parser α) (s : Parser σ) (q : Parser β) :
    Parser (α × β) :=
  pmap (pair p (pair s q)) (fun x => (x.1, x.2.2))

/-- nom's `tuple` combinator at arity three (used by `cache_size`). -/
def tuple3 {α β γ : Type} (p : Parser α) (q : Parser β) (r : Parser γ) :
    Parser (α × β × γ) :=
  pair p (pair q r)

/-- nom's `alt` combinator at arity two: the second branch runs only when
the first fails recoverably. -/
def alt2 {α : Type} (p q : Parser α) : Parser α := fun i =>
  match p i with
  | .err => q i
  | r => r

/-- nom's `value` combinator. -/
def pvalue {α β : Type} (b : β) (p : Parser α) : Parser β :=
  pmap p (fun _ => b)

/-- Helper for nom's `tag`: compares the tag against the front of the
input, returning the rest on a match. -/
def tagGo : Input → Input → Option Input
  | [], i => some i
  | _ :: _, [] => none
  | c :: t, d :: i => if c = d then tagGo t i else none

/-- nom's `tag`: matches the literal `t` at the front of the input and
returns it. -/
def tag (t : Input) : Parser Input := fun i =>
  match tagGo t i with
  | some r => .ok t r
  | none => .err

/-- ASCII-case-insensitive character folding used by nom's `tag_no_case`. -/
def ascii_lower (c : Char) : Char :=
  if 'A' ≤ c ∧ c ≤ 'Z' then Char.ofNat (c.toNat + 32) else c

def tag_no_case_go : Input → Input → Option Input
  | [], i => some i
  | _ :: _, [] => none
  | c :: t, d :: i => if ascii_lower c = ascii_lower d then tag_no_case_go t i else none

/-- nom's `tag_no_case` (ASCII case folding); returns the matched slice of
the input in its original casing. -/
def tag_no_case (t : Input) : Parser Input := fun i =>
  match tag_no_case_go t i with
  | some r => .ok (i.take t.length) r
  | none => .err

/-- Membership of a character in a literal character class, as used by
nom's `one_of`. -/
def cmem (c : Char) : Input → Bool
  | [] => false
  | d :: t => if c = d then true else cmem c t

/-- Longest prefix of characters satisfying `p`, together with the rest of
the input.  This is the consumption pattern shared by nom's `space0`,
`alpha1`, `alphanumeric1`, `digit1` and `many1(one_of ...)`. -/
def spanP (p : Char → Bool) : Input → Input × Input
  | [] => ([], [])
  | c :: t => if p c = true then (c :: (spanP p t).1, (spanP p t).2) else ([], c :: t)

/-- nom's `recognize(many1(one_of cs))` pattern and its fixed-class
relatives (`alpha1`, `alphanumeric1`, `digit1`): the maximal nonempty
prefix of characters satisfying `p`, failing recoverably when it is
empty. -/
def many1P (p : Char → Bool) : Parser Input := fun i =>
  match spanP p i with
  | ([], _) => .err
  | (tk, r) => .ok tk r

/-- ASCII space or tab, the class of nom's `space0`. -/
def is_space (c : Char) : Bool := c == ' ' || c == '\t'

/-- ASCII decimal digit, the class used by nom's `u32` and `digit1`. -/
def is_digit (c : Char) : Bool := 48 ≤ c.toNat && c.toNat ≤ 57

/-- ASCII alphabetic, the class of nom's `alpha1` on `&str`. -/
def is_alpha (c : Char) : Bool :=
  (65 ≤ c.toNat && c.toNat ≤ 90) || (97 ≤ c.toNat && c.toNat ≤ 122)

/-- ASCII alphanumeric, the class of nom's `alphanumeric1` on `&str`. -/
def is_alnum (c : Char) : Bool := is_alpha c || is_digit c

/-- nom's `space0`: zero or more spaces and tabs, never failing. -/
def space0 : Parser Input := fun i =>
  match spanP is_space i with
  | (a, b) => .ok a b

/-- nom's `alpha1`. -/
def alpha1 : Parser Input := many1P is_alpha

/-- nom's `alphanumeric1`. -/
def alphanumeric1 : Parser Input := many1P is_alnum

/-- nom's `line_ending`: matches `"\n"` or `"\r\n"`. -/
def line_ending : Parser Input := fun i =>
  match i with
  | c :: t =>
    if c = '\n' then .ok ['\n'] t
    else
      if c = '\r' then
        match t with
        | d :: u => if d = '\n' then .ok ['\r', '\n'] u else .err
        | [] => .err
      else .err
  | [] => .err

/-- nom's complete `not_line_ending`: consumes up to (not including) the
first `'\r'` or `'\n'`, or the whole input; a `'\r'` not followed by
`'\n'` is a recoverable error. -/
def not_line_ending : Parser Input := fun i =>
  match spanP (fun c => !(c == '\r') && !(c == '\n')) i with
  | (pre, rest) =>
    match rest with
    | c :: t =>
      if c = '\r' then
        match t with
        | d :: _ => if d = '\n' then .ok pre rest else .err
        | [] => .err
      else .ok pre rest
    | [] => .ok pre rest

/-- Numeric value of a run of ASCII decimal digits, accumulated most
significant digit first exactly as nom's integer decoders do. -/
def digitsVal (ds : Input) : Nat :=
  ds.foldl (fun a c => a * 10 + (c.toNat - 48)) 0

/-- nom's `character::complete::u32`: consumes the maximal nonempty run of
decimal digits and accumulates the value with a checked multiply-add.  The
Rust loop returns an error as soon as an accumulation step overflows the
`u32`, which happens exactly when the value of the digit run is at least
`2 ^ 32` (partial values grow monotonically as digits are consumed). -/
def complete_u32 : Parser Nat := fun i =>
  match spanP is_digit i with
  | ([], _) => .err
  | (ds, rest) => if digitsVal ds < 2 ^ 32 then .ok (digitsVal ds) rest else .err

/-- Value of a hexadecimal digit, as Rust's `char::to_digit(16)`. -/
def hexDigitVal (c : Char) : Nat :=
  if 97 ≤ c.toNat then c.toNat - 87
  else if 65 ≤ c.toNat then c.toNat - 55
  else c.toNat - 48

/-- Numeric value of a run of hexadecimal digits, most significant digit
first, as computed by `u32::from_str_radix(_, 16)`. -/
def hexVal (ds : Input) : Nat :=
  ds.foldl (fun a c => a * 16 + hexDigitVal c) 0

/-- Character class of the source's `one_of` inside `hexadecimal`. -/
def hex_chars : Input := "0123456789abcdefABCDEF".data

/-- Character class of the source's `one_of` inside `list` (verbatim,
including the repeated `0`). -/
def token_chars : Input := "abcdefghijklmnopqrstuvwxyz01234567890_".data

/-- Exponent part of nom's `recognize_float`: `opt(tuple((e/E, opt(sign),
cut(digit1))))`.  `acc` is the text recognized so far; the `cut` turns a
missing exponent digit run into an unrecoverable failure. -/
def exponent_part (acc : Input) : Parser Input := fun r =>
  match r with
  | c :: t =>
    if c = 'e' ∨ c = 'E' then
      match t with
      | d :: u =>
        if d = '+' ∨ d = '-' then
          match spanP is_digit u with
          | ([], _) => .fail
          | (ds, v) => .ok (acc ++ c :: d :: ds) v
        else
          match spanP is_digit t with
          | ([], _) => .fail
          | (ds, v) => .ok (acc ++ c :: ds) v
      | [] => .fail
    else .ok acc r
  | [] => .ok acc r

/-- nom's `recognize_float`: optional sign, then either `digit1` with an
optional `.` and optional fraction digits, or `.` followed by `digit1`,
then the optional exponent with `cut(digit1)`.  Returns the recognized
text. -/
def recognize_float : Parser Input := fun i =>
  match i with
  | c :: t =>
    if c = '+' ∨ c = '-' then
      match spanP is_digit t with
      | ([], _) =>
        match t with
        | '.' :: u =>
          (match spanP is_digit u with
           | ([], _) => .err
           | (ds, r) => exponent_part ([c] ++ '.' :: ds) r)
        | _ => .err
      | (ds, r) =>
        match r with
        | '.' :: u =>
          (match spanP is_digit u with
           | (ds2, r2) => exponent_part ([c] ++ ds ++ '.' :: ds2) r2)
        | _ => exponent_part ([c] ++ ds) r
    else
      match spanP is_digit i with
      | ([], _) =>
        match i with
        | '.' :: u =>
          (match spanP is_digit u with
           | ([], _) => .err
           | (ds, r) => exponent_part ('.' :: ds) r)
        | _ => .err
      | (ds, r) =>
        match r with
        | '.' :: u =>
          (match spanP is_digit u with
           | (ds2, r2) => exponent_part (ds ++ '.' :: ds2) r2)
        | _ => exponent_part ds r
  | [] => .err

/-- nom's `recognize_float_or_exceptions`: the float grammar or one of the
case-insensitive literals `nan`, `inf`, `infinity`. -/
def recognize_float_or_exceptions : Parser Input :=
  alt2 recognize_float
    (alt2 (tag_no_case ("nan".data))
      (alt2 (tag_no_case ("inf".data)) (tag_no_case ("infinity".data))))

/-- nom's `number::complete::float`.  The recognized text always converts
to an `f32` in Rust, so the conversion never fails; the value is modelled
as the recognized text itself (binary `f32` semantics are outside this
embedding and no claim depends on the float's numeric value). -/
def float : Parser Input := recognize_float_or_exceptions

/-- Source `separator`: `value((), delimited(space0, tag(":"), space0))`. -/
def separator : Parser Unit :=
  pvalue () (delimited space0 (tag (":".data)) space0)

/-- Source `field_value`: field name, separator, decoded value, line
terminator; yields the value. -/
def field_value {α : Type} (fname : Parser Input) (fval : Parser α) : Parser α :=
  pmap (terminated (separated_pair fname separator fval) line_ending) (fun x => x.2)

/-- Source `boolean`: `alt((tag("yes"), tag("no")))` mapped to `Bool`; the
match arm for any other text is unreachable because `alt` only yields one
of the two tags. -/
def boolean : Parser Bool :=
  pmap (alt2 (tag ("yes".data)) (tag ("no".data))) (fun v => v == "yes".data)

/-- Source `list`: `separated_list0(tag(" "), recognize(many1(one_of
"abcdefghijklmnopqrstuvwxyz01234567890_")))`.  Defined after the generic
separated-list loop below. -/
def sepList0Loop {σ α : Type} (sep : Parser σ) (p : Parser α) :
    Nat → List α → Input → PRes (List α)
  | 0, _, _ => .err
  | fuel + 1, acc, i =>
    match sep i with
    | .err => .ok acc i
    | .fail => .fail
    | .ok _ i1 =>
      if i1.length = i.length then .err
      else
        match p i1 with
        | .err => .ok acc i
        | .fail => .fail
        | .ok a i2 => sepList0Loop sep p fuel (acc ++ [a]) i2

/-- nom's `separated_list0`.  nom iterates until the separator or element
fails recoverably, returning an error when the separator succeeds without
consuming input.  Because every continuing iteration therefore consumes at
least one character, `length + 1` units of fuel always suffice, and the
fuel-exhaustion branch is unreachable. -/
def separated_list0 {σ α : Type} (sep : Parser σ) (p : Parser α) : Parser (List α) := fun i =>
  match p i with
  | .err => .ok [] i
  | .fail => .fail
  | .ok a i1 => sepList0Loop sep p (i1.length + 1) [a] i1

/-- nom's `separated_list1`: as `separated_list0` but the first element is
mandatory. -/
def separated_list1 {σ α : Type} (sep : Parser σ) (p : Parser α) : Parser (List α) := fun i =>
  match p i with
  | .err => .err
  | .fail => .fail
  | .ok a i1 => sepList0Loop sep p (i1.length + 1) [a] i1

def list : Parser (List Input) :=
  separated_list0 (tag (" ".data)) (many1P (fun c => cmem c token_chars))

/-- Source `hexadecimal`: a case-insensitive `0x` prefix, then
`recognize(many1(one_of hex))`, then `u32::from_str_radix(_, 16)` via
`map_res`; the conversion errors exactly when the digits' value is at
least `2 ^ 32`. -/
def hexadecimal : Parser Nat :=
  map_res
    (preceded (alt2 (tag ("0x".data)) (tag ("0X".data)))
      (many1P (fun c => cmem c hex_chars)))
    (fun out => if hexVal out < 2 ^ 32 then some (hexVal out) else none)

structure AddressSizes where
  physical_size : Nat
  virtual_size : Nat
deriving DecidableEq, Repr

def processor : Parser Nat := field_value (tag ("processor".data)) complete_u32

def vendor_id : Parser Input := field_value (tag ("vendor_id".data)) alpha1

def cpu_family : Parser Nat := field_value (tag ("cpu family".data)) complete_u32

def model : Parser Nat := field_value (tag ("model".data)) complete_u32

def model_name : Parser Input := field_value (tag ("model name".data)) not_line_ending

def stepping : Parser Nat := field_value (tag ("stepping".data)) complete_u32

def microcode : Parser Nat := field_value (tag ("microcode".data)) hexadecimal

def cpu_mhz : Parser Input := field_value (tag ("cpu MHz".data)) float

/-- Source `cache_size`: the `u32` kilobyte count must be followed by
`space0`, the literal `KB` and the line terminator, and is multiplied by
1024.  The Rust multiplication is on `u32`, so its result is reduced
modulo `2 ^ 32` (release-build wrapping semantics). -/
def cache_size : Parser Nat :=
  pmap
    (terminated (separated_pair (tag ("cache size".data)) separator complete_u32)
      (tuple3 space0 (tag ("KB".data)) line_ending))
    (fun x => x.2 * 1024 % 2 ^ 32)

def physical_id : Parser Nat := field_value (tag ("physical id".data)) complete_u32

def siblings : Parser Nat := field_value (tag ("siblings".data)) complete_u32

def core_id : Parser Nat := field_value (tag ("core id".data)) complete_u32

def cpu_cores : Parser Nat := field_value (tag ("cpu cores".data)) complete_u32

def apicid : Parser Nat := field_value (tag ("apicid".data)) complete_u32

def initial_apicid : Parser Nat := field_value (tag ("initial apicid".data)) complete_u32

def fpu : Parser Bool := field_value (tag ("fpu".data)) boolean

def fpu_exception : Parser Bool := field_value (tag ("fpu_exception".data)) boolean

def cpuid_level : Parser Nat := field_value (tag ("cpuid level".data)) complete_u32

def wp : Parser Bool := field_value (tag ("wp".data)) boolean

def flags : Parser (List Input) := field_value (tag ("flags".data)) list

def vmx_flags : Parser (List Input) := field_value (tag ("vmx flags".data)) list

def bugs : Parser (List Input) := field_value (tag ("bugs".data)) list

def bogomips : Parser Input := field_value (tag ("bogomips".data)) float

def clflush_size : Parser Nat := field_value (tag ("clflush size".data)) complete_u32

def cache_alignment : Parser Nat := field_value (tag ("cache_alignment".data)) complete_u32

def physical_size : Parser Nat :=
  pmap (pair complete_u32 (tag (" bits physical".data))) (fun x => x.1)

def virtual_size : Parser Nat :=
  pmap (pair complete_u32 (tag (" bits virtual".data))) (fun x => x.1)

def address_sizes : Parser AddressSizes :=
  field_value (tag ("address sizes".data))
    (pmap (separated_pair physical_size (tag (", ".data)) virtual_size)
      (fun x => { physical_size := x.1, virtual_size := x.2 }))

def power_management : Parser (Option Input) :=
  field_value (tag ("power management".data)) (opt alphanumeric1)

/-- One parsed processor record (source struct `Cpu`).  String-slice
fields hold the matched text; the `u32` fields hold their `Nat` values;
the `f32` fields hold the recognized numeral text. -/
structure Cpu where
  processor : Nat
  vendor_id : Input
  cpu_family : Nat
  model : Nat
  model_name : Input
  stepping : Nat
  microcode : Nat
  cpu_mhz : Input
  cache_size : Nat
  physical_id : Nat
  siblings : Nat
  core_id : Nat
  cpu_cores : Nat
  apicid : Nat
  initial_apicid : Nat
  fpu : Bool
  fpu_exception : Bool
  cpuid_level : Nat
  wp : Bool
  flags : List Input
  vmx_flags : List Input
  bugs : List Input
  bogomips : Input
  clflush_size : Nat
  cache_alignment : Nat
  address_sizes : AddressSizes
  power_management : Option Input
deriving DecidableEq, Repr

/-- The parsed document (source struct `CpuInfo`). -/
structure CpuInfo where
  cpus : List Cpu
deriving DecidableEq, Repr

/-- Source `cpu`: the twenty-seven field parsers applied in the fixed
order, threading the unconsumed remainder forward with `?`. -/
def cpu : Parser Cpu := fun input =>
  pbind (processor input) fun processor input =>
  pbind (vendor_id input) fun vendor_id input =>
  pbind (cpu_family input) fun cpu_family input =>
  pbind (model input) fun model input =>
  pbind (model_name input) fun model_name input =>
  pbind (stepping input) fun stepping input =>
  pbind (microcode input) fun microcode input =>
  pbind (cpu_mhz input) fun cpu_mhz input =>
  pbind (cache_size input) fun cache_size input =>
  pbind (physical_id input) fun physical_id input =>
  pbind (siblings input) fun siblings input =>
  pbind (core_id input) fun core_id input =>
  pbind (cpu_cores input) fun cpu_cores input =>
  pbind (apicid input) fun apicid input =>
  pbind (initial_apicid input) fun initial_apicid input =>
  pbind (fpu input) fun fpu input =>
  pbind (fpu_exception input) fun fpu_exception input =>
  pbind (cpuid_level input) fun cpuid_level input =>
  pbind (wp input) fun wp input =>
  pbind (flags input) fun flags input =>
  pbind (vmx_flags input) fun vmx_flags input =>
  pbind (bugs input) fun bugs input =>
  pbind (bogomips input) fun bogomips input =>
  pbind (clflush_size input) fun clflush_size input =>
  pbind (cache_alignment input) fun cache_alignment input =>
  pbind (address_sizes input) fun address_sizes input =>
  pbind (power_management input) fun power_management input =>
  .ok
    { processor := processor, vendor_id := vendor_id, cpu_family := cpu_family,
      model := model, model_name := model_name, stepping := stepping,
      microcode := microcode, cpu_mhz := cpu_mhz, cache_size := cache_size,
      physical_id := physical_id, siblings := siblings, core_id := core_id,
      cpu_cores := cpu_cores, apicid := apicid, initial_apicid := initial_apicid,
      fpu := fpu, fpu_exception := fpu_exception, cpuid_level := cpuid_level,
      wp := wp, flags := flags, vmx_flags := vmx_flags, bugs := bugs,
      bogomips := bogomips, clflush_size := clflush_size,
      cache_alignment := cache_alignment, address_sizes := address_sizes,
      power_management := power_management }
    input

/-- Source `cpus`: `separated_list1(line_ending, cpu)`. -/
def cpus : Parser (List Cpu) := separated_list1 line_ending cpu

/-- Source `cpuinfo`: runs `cpus`, discards the unconsumed remainder
(`let (_, cpus) = cpus(input)?`) and wraps the records; any parse error
becomes a single reportable failure, modelled as `none`. -/
def cpuinfo (input : Input) : Option CpuInfo :=
  match cpus input with
  | .ok cs _ => some { cpus := cs }
  | .err => none
  | .fail => none

/-- Records of a document joined by the single-blank-line separator (one
extra line break between consecutive records, each record ending with its
own terminating line break), followed by the trailing text `t`.  The
separator character is a parameter so the same shape also describes
space-separated token lists. -/
def sepJoinWith (s : Char) (t : Input) : List Input → Input
  | [] => t
  | r :: rs => s :: (r ++ sepJoinWith s t rs)

/-- A nonempty chunk list joined by the one-character separator `s`, with
trailing text `t`: `r1 ++ s :: r2 ++ ... ++ s :: rn ++ t`. -/
def joinWith (s : Char) (t : Input) : List Input → Input
  | [] => t
  | r :: rs => r ++ sepJoinWith s t rs

/-- Well-formedness of a chunk list for `cpus` relative to the trailing
text `t`: each record text parses as one `Cpu`, consuming exactly itself
and leaving the rest of the document unread. -/
def chainOK (t : Input) : List Input → List Cpu → Prop
  | [], [] => True
  | r :: rs, c :: cs =>
    cpu (r ++ sepJoinWith '\n' t rs) = .ok c (sepJoinWith '\n' t rs) ∧ chainOK t rs cs
  | _, _ => False

/-- The trailing text does not fit the blank-line-then-record pattern, in
the recoverable way that makes `separated_list1` stop: either no line
ending starts it, or a record fails (recoverably) after the line ending. -/
def TrailingStops (t : Input) : Prop :=
  line_ending t = .err ∨ ∃ x j, line_ending t = .ok x j ∧ cpu j = .err

/-- Trace of the iteration of `sepList0Loop`: from input `i` it appends
the values `as` and stops with remainder `r`. -/
inductive LoopSteps {σ α : Type} (sep : Parser σ) (p : Parser α) : Input → List α → Input → Prop where
  | stop_sep (i : Input) : sep i = .err → LoopSteps sep p i [] i
  | stop_elt (i : Input) (x : σ) (i1 : Input) :
      sep i = .ok x i1 → ¬ i1.length = i.length → p i1 = .err → LoopSteps sep p i [] i
  | step (i : Input) (x : σ) (i1 : Input) (a : α) (i2 : Input) (as : List α) (r : Input) :
      sep i = .ok x i1 → ¬ i1.length = i.length → p i1 = .ok a i2 →
      i2.length < i.length → LoopSteps sep p i2 as r → LoopSteps sep p i (a :: as) r

/-- The first-record stop condition for a token after a list: true when
the head character is not in the class (or the input is empty), so a span
of the class stops immediately. -/
def stopP (p : Char → Bool) : Input → Prop
  | [] => True
  | c :: _ => p c = false

/-- Minimal well-formed processor record used as concrete test data. -/
def minRec : Input :=
  ("processor:0\nvendor_id:A\ncpu family:6\nmodel:9\nmodel name:M\nstepping:3\nmicrocode:0xf0\ncpu MHz:1.5\ncache size:8 KB\nphysical id:0\nsiblings:8\ncore id:2\ncpu cores:4\napicid:5\ninitial apicid:5\nfpu:yes\nfpu_exception:yes\ncpuid level:2\nwp:yes\nflags:a b\nvmx flags:c\nbugs:\nbogomips:8.0\nclflush size:64\ncache_alignment:64\naddress sizes:39 bits physical, 48 bits virtual\npower management:\n").data

/-- The record value `minRec` parses to. -/
def minCpu : Cpu :=
  { processor := 0, vendor_id := ("A").data, cpu_family := 6, model := 9,
    model_name := ("M").data, stepping := 3, microcode := 240,
    cpu_mhz := ("1.5").data, cache_size := 8192, physical_id := 0,
    siblings := 8, core_id := 2, cpu_cores := 4, apicid := 5,
    initial_apicid := 5, fpu := true, fpu_exception := true, cpuid_level := 2,
    wp := true, flags := [("a").data, ("b").data], vmx_flags := [("c").data],
    bugs := [], bogomips := ("8.0").data, clflush_size := 64,
    cache_alignment := 64,
    address_sizes := { physical_size := 39, virtual_size := 48 },
    power_management := none }

/-- A second minimal well-formed processor record (processor index 1). -/
def minRec2 : Input :=
  ("processor:1\nvendor_id:A\ncpu family:6\nmodel:9\nmodel name:M\nstepping:3\nmicrocode:0xf0\ncpu MHz:1.5\ncache size:8 KB\nphysical id:0\nsiblings:8\ncore id:3\ncpu cores:4\napicid:7\ninitial apicid:7\nfpu:yes\nfpu_exception:yes\ncpuid level:2\nwp:yes\nflags:a b\nvmx flags:c\nbugs:\nbogomips:8.0\nclflush size:64\ncache_alignment:64\naddress sizes:39 bits physical, 48 bits virtual\npower management:\n").data

/-- The record value `minRec2` parses to. -/
def minCpu2 : Cpu :=
  { minCpu with processor := 1, core_id := 3, apicid := 7, initial_apicid := 7 }


theorem pmap_ok {α β : Type} {p : Parser α} {f : α → β} {i : Input} {a : α} {r : Input}
    (h : p i = .ok a r) : pmap p f i = .ok (f a) r := by
  simp [pmap, h]

theorem pmap_err {α β : Type} {p : Parser α} {f : α → β} {i : Input}
    (h : p i = .err) : pmap p f i = .err := by
  simp [pmap, h]

theorem map_res_some {α β : Type} {p : Parser α} {f : α → Option β} {i : Input} {a : α}
    {r : Input} {b : β} (h1 : p i = .ok a r) (h2 : f a = some b) :
    map_res p f i = .ok b r := by
  simp [map_res, h1, h2]

theorem map_res_none {α β : Type} {p : Parser α} {f : α → Option β} {i : Input} {a : α}
    {r : Input} (h1 : p i = .ok a r) (h2 : f a = none) : map_res p f i = .err := by
  simp [map_res, h1, h2]

theorem map_res_err {α β : Type} {p : Parser α} {f : α → Option β} {i : Input}
    (h1 : p i = .err) : map_res p f i = .err := by
  simp [map_res, h1]

theorem opt_of_ok {α : Type} {p : Parser α} {i : Input} {a : α} {r : Input}
    (h : p i = .ok a r) : opt p i = .ok (some a) r := by
  simp [opt, h]

theorem opt_of_err {α : Type} {p : Parser α} {i : Input} (h : p i = .err) :
    opt p i = .ok none i := by
  simp [opt, h]

theorem pair_ok {α β : Type} {p : Parser α} {q : Parser β} {i : Input} {a : α} {m : Input}
    {b : β} {r : Input} (h1 : p i = .ok a m) (h2 : q m = .ok b r) :
    pair p q i = .ok (a, b) r := by
  simp [pair, h1, h2]

theorem pair_err1 {α β : Type} {p : Parser α} {q : Parser β} {i : Input}
    (h1 : p i = .err) : pair p q i = .err := by
  simp [pair, h1]

theorem pair_err2 {α β : Type} {p : Parser α} {q : Parser β} {i : Input} {a : α} {m : Input}
    (h1 : p i = .ok a m) (h2 : q m = .err) : pair p q i = .err := by
  simp [pair, h1, h2]

theorem preceded_ok {α β : Type} {p : Parser α} {q : Parser β} {i : Input} {a : α}
    {m : Input} {b : β} {r : Input} (h1 : p i = .ok a m) (h2 : q m = .ok b r) :
    preceded p q i = .ok b r :=
  pmap_ok (pair_ok h1 h2)

theorem preceded_err2 {α β : Type} {p : Parser α} {q : Parser β} {i : Input} {a : α}
    {m : Input} (h1 : p i = .ok a m) (h2 : q m = .err) : preceded p q i = .err :=
  pmap_err (pair_err2 h1 h2)

theorem terminated_ok {α β : Type} {p : Parser α} {q : Parser β} {i : Input} {a : α}
    {m : Input} {b : β} {r : Input} (h1 : p i = .ok a m) (h2 : q m = .ok b r) :
    terminated p q i = .ok a r :=
  pmap_ok (pair_ok h1 h2)

theorem terminated_err1 {α β : Type} {p : Parser α} {q : Parser β} {i : Input}
    (h1 : p i = .err) : terminated p q i = .err :=
  pmap_err (pair_err1 h1)

theorem terminated_err2 {α β : Type} {p : Parser α} {q : Parser β} {i : Input} {a : α}
    {m : Input} (h1 : p i = .ok a m) (h2 : q m = .err) : terminated p q i = .err :=
  pmap_err (pair_err2 h1 h2)

theorem delimited_ok {α β γ : Type} {p : Parser α} {q : Parser β} {w : Parser γ}
    {i : Input} {a : α} {m1 : Input} {b : β} {m2 : Input} {c : γ} {r : Input}
    (h1 : p i = .ok a m1) (h2 : q m1 = .ok b m2) (h3 : w m2 = .ok c r) :
    delimited p q w i = .ok b r :=
  preceded_ok h1 (terminated_ok h2 h3)

theorem separated_pair_ok {α σ β : Type} {p : Parser α} {s : Parser σ} {q : Parser β}
    {i : Input} {a : α} {m1 : Input} {x : σ} {m2 : Input} {b : β} {r : Input}
    (h1 : p i = .ok a m1) (h2 : s m1 = .ok x m2) (h3 : q m2 = .ok b r) :
    separated_pair p s q i = .ok (a, b) r :=
  pmap_ok (pair_ok h1 (pair_ok h2 h3))

theorem separated_pair_err3 {α σ β : Type} {p : Parser α} {s : Parser σ} {q : Parser β}
    {i : Input} {a : α} {m1 : Input} {x : σ} {m2 : Input}
    (h1 : p i = .ok a m1) (h2 : s m1 = .ok x m2) (h3 : q m2 = .err) :
    separated_pair p s q i = .err :=
  pmap_err (pair_err2 h1 (pair_err2 h2 h3))

theorem tuple3_ok {α β γ : Type} {p : Parser α} {q : Parser β} {w : Parser γ}
    {i : Input} {a : α} {m1 : Input} {b : β} {m2 : Input} {c : γ} {r : Input}
    (h1 : p i = .ok a m1) (h2 : q m1 = .ok b m2) (h3 : w m2 = .ok c r) :
    tuple3 p q w i = .ok (a, b, c) r :=
  pair_ok h1 (pair_ok h2 h3)

theorem alt2_ok1 {α : Type} {p q : Parser α} {i : Input} {a : α} {r : Input}
    (h : p i = .ok a r) : alt2 p q i = .ok a r := by
  simp [alt2, h]

theorem alt2_err1 {α : Type} {p q : Parser α} {i : Input} (h : p i = .err) :
    alt2 p q i = q i := by
  simp [alt2, h]

theorem pvalue_ok {α β : Type} {p : Parser α} {b : β} {i : Input} {a : α} {r : Input}
    (h : p i = .ok a r) : pvalue b p i = .ok b r :=
  pmap_ok h

theorem field_value_ok {α : Type} {fname : Parser Input} {fval : Parser α} {i : Input}
    {nm : Input} {m1 : Input} {m2 : Input} {v : α} {m3 : Input} {le : Input} {r : Input}
    (h1 : fname i = .ok nm m1) (h2 : separator m1 = .ok () m2)
    (h3 : fval m2 = .ok v m3) (h4 : line_ending m3 = .ok le r) :
    field_value fname fval i = .ok v r :=
  pmap_ok (terminated_ok (separated_pair_ok h1 h2 h3) h4)

theorem field_value_err_val {α : Type} {fname : Parser Input} {fval : Parser α} {i : Input}
    {nm : Input} {m1 : Input} {m2 : Input}
    (h1 : fname i = .ok nm m1) (h2 : separator m1 = .ok () m2) (h3 : fval m2 = .err) :
    field_value fname fval i = .err :=
  pmap_err (terminated_err1 (separated_pair_err3 h1 h2 h3))

theorem field_value_err_term {α : Type} {fname : Parser Input} {fval : Parser α} {i : Input}
    {nm : Input} {m1 : Input} {m2 : Input} {v : α} {m3 : Input}
    (h1 : fname i = .ok nm m1) (h2 : separator m1 = .ok () m2)
    (h3 : fval m2 = .ok v m3) (h4 : line_ending m3 = .err) :
    field_value fname fval i = .err :=
  pmap_err (terminated_err2 (separated_pair_ok h1 h2 h3) h4)

theorem spanP_split {p : Char → Bool} : ∀ {ds r : Input},
    (∀ c ∈ ds, p c = true) → stopP p r → spanP p (ds ++ r) = (ds, r) := by
  intro ds
  induction ds with
  | nil =>
    intro r _ hs
    cases r with
    | nil => rfl
    | cons c t =>
      have hc : p c = false := hs
      simp [spanP, hc]
  | cons d ds ih =>
    intro r h1 hs
    have hd : p d = true := h1 d (by simp)
    have hrest := ih (fun c hc => h1 c (by simp [hc])) hs
    simp [spanP, hd, hrest]

theorem many1P_split {p : Char → Bool} {ds r : Input} (hne : ds ≠ [])
    (h1 : ∀ c ∈ ds, p c = true) (hs : stopP p r) : many1P p (ds ++ r) = .ok ds r := by
  cases ds with
  | nil => exact absurd rfl hne
  | cons d t =>
    unfold many1P
    rw [spanP_split h1 hs]

theorem many1P_stop {p : Char → Bool} {i : Input} (hs : stopP p i) : many1P p i = .err := by
  cases i with
  | nil => rfl
  | cons c t =>
    have hc : p c = false := hs
    simp [many1P, spanP, hc]

theorem space0_split {ws r : Input} (h1 : ∀ c ∈ ws, is_space c = true)
    (hs : stopP is_space r) : space0 (ws ++ r) = .ok ws r := by
  simp [space0, spanP_split h1 hs]

theorem complete_u32_split {ds r : Input} (hne : ds ≠ [])
    (h1 : ∀ c ∈ ds, is_digit c = true) (hs : stopP is_digit r)
    (hlt : digitsVal ds < 2 ^ 32) : complete_u32 (ds ++ r) = .ok (digitsVal ds) r := by
  cases ds with
  | nil => exact absurd rfl hne
  | cons d t =>
    unfold complete_u32
    rw [spanP_split h1 hs]
    exact if_pos hlt

theorem complete_u32_overflow {ds r : Input} (hne : ds ≠ [])
    (h1 : ∀ c ∈ ds, is_digit c = true) (hs : stopP is_digit r)
    (hge : ¬ digitsVal ds < 2 ^ 32) : complete_u32 (ds ++ r) = .err := by
  cases ds with
  | nil => exact absurd rfl hne
  | cons d t =>
    unfold complete_u32
    rw [spanP_split h1 hs]
    exact if_neg hge

theorem separator_split {ws1 ws2 r : Input} (h1 : ∀ c ∈ ws1, is_space c = true)
    (h2 : ∀ c ∈ ws2, is_space c = true) (hs : stopP is_space r) :
    separator (ws1 ++ ':' :: (ws2 ++ r)) = .ok () r := by
  have ha : space0 (ws1 ++ ':' :: (ws2 ++ r)) = .ok ws1 (':' :: (ws2 ++ r)) :=
    space0_split h1 (by decide : is_space ':' = false)
  have hb : tag (":".data) (':' :: (ws2 ++ r)) = .ok (":".data) (ws2 ++ r) := rfl
  have hc : space0 (ws2 ++ r) = .ok ws2 r := space0_split h2 hs
  exact pvalue_ok (delimited_ok ha hb hc)

theorem line_ending_lf (r : Input) : line_ending ('\n' :: r) = .ok ['\n'] r := rfl

theorem line_ending_other {c : Char} (t : Input) (h1 : ¬ c = '\n') (h2 : ¬ c = '\r') :
    line_ending (c :: t) = .err := by
  simp [line_ending, h1, h2]

theorem line_ending_shrinks {i x j : Input} (h : line_ending i = .ok x j) :
    j.length < i.length := by
  cases i with
  | nil => simp [line_ending] at h
  | cons c t =>
    by_cases h1 : c = '\n'
    · subst h1
      simp [line_ending] at h
      obtain ⟨-, hj⟩ := h
      subst hj
      simp only [List.length_cons]
      omega
    · by_cases h2 : c = '\r'
      · subst h2
        cases t with
        | nil => simp [line_ending] at h
        | cons d u =>
          by_cases hd : d = '\n'
          · subst hd
            simp [line_ending] at h
            obtain ⟨-, hj⟩ := h
            subst hj
            simp only [List.length_cons]
            omega
          · simp [line_ending, hd] at h
      · simp [line_ending, h1, h2] at h

theorem cpu_nil_err : cpu [] = .err := rfl

theorem cpu_head_err {c : Char} (t : Input) (h : ¬ c = 'p') : cpu (c :: t) = .err := by
  have htag : tagGo ("processor".data) (c :: t) = none := by
    show (if 'p' = c then tagGo ("rocessor".data) t else none) = none
    rw [if_neg (fun hh => h hh.symm)]
  have hp : processor (c :: t) = .err := by
    simp [processor, field_value, pmap, terminated, separated_pair, pair, tag, htag]
  simp [cpu, pbind, hp]

theorem loopSteps_length {σ α : Type} {sep : Parser σ} {p : Parser α} {i : Input}
    {as : List α} {r : Input} (h : LoopSteps sep p i as r) : as.length ≤ i.length := by
  induction h with
  | stop_sep => simp
  | stop_elt => simp
  | step i x i1 a i2 as r h1 h2 h3 h4 h5 ih =>
    simp only [List.length_cons]
    omega

theorem sepList0Loop_of_steps {σ α : Type} {sep : Parser σ} {p : Parser α} {i : Input}
    {as : List α} {r : Input} (h : LoopSteps sep p i as r) :
    ∀ (acc : List α) (fuel : Nat), i.length < fuel →
      sepList0Loop sep p fuel acc i = .ok (acc ++ as) r := by
  induction h with
  | stop_sep i hs =>
    intro acc fuel hf
    cases fuel with
    | zero => omega
    | succ f => simp [sepList0Loop, hs]
  | stop_elt i x i1 hs hlen hp =>
    intro acc fuel hf
    cases fuel with
    | zero => omega
    | succ f => simp [sepList0Loop, hs, hlen, hp]
  | step i x i1 a i2 as r h1 h2 h3 h4 h5 ih =>
    intro acc fuel hf
    cases fuel with
    | zero => omega
    | succ f =>
      simp only [sepList0Loop]
      rw [h1]
      simp only [if_neg h2]
      rw [h3]
      show sepList0Loop sep p f (acc ++ [a]) i2 = .ok (acc ++ a :: as) r
      rw [ih (acc ++ [a]) f (by omega)]
      simp

theorem separated_list1_of {σ α : Type} {sep : Parser σ} {p : Parser α} {i : Input}
    {a : α} {i1 : Input} {as : List α} {r : Input}
    (h : p i = .ok a i1) (hs : LoopSteps sep p i1 as r) :
    separated_list1 sep p i = .ok (a :: as) r := by
  have hl := sepList0Loop_of_steps hs [a] (i1.length + 1) (by omega)
  simp [separated_list1, h, hl]

theorem separated_list0_of_ok {σ α : Type} {sep : Parser σ} {p : Parser α} {i : Input}
    {a : α} {i1 : Input} {as : List α} {r : Input}
    (h : p i = .ok a i1) (hs : LoopSteps sep p i1 as r) :
    separated_list0 sep p i = .ok (a :: as) r := by
  have hl := sepList0Loop_of_steps hs [a] (i1.length + 1) (by omega)
  simp [separated_list0, h, hl]

theorem separated_list0_of_err {σ α : Type} {sep : Parser σ} {p : Parser α} {i : Input}
    (h : p i = .err) : separated_list0 sep p i = .ok [] i := by
  simp [separated_list0, h]

theorem chain_loopsteps {t : Input} : ∀ {rs : List Input} {cs : List Cpu},
    chainOK t rs cs → TrailingStops t →
    LoopSteps line_ending cpu (sepJoinWith '\n' t rs) cs t := by
  intro rs
  induction rs with
  | nil =>
    intro cs hc ht
    cases cs with
    | cons c cs => exact (hc : False).elim
    | nil =>
      rcases ht with h | ⟨x, j, hok, herr⟩
      · exact LoopSteps.stop_sep t h
      · exact LoopSteps.stop_elt t x j hok
          (by have := line_ending_shrinks hok; omega) herr
  | cons r rs ih =>
    intro cs hc ht
    cases cs with
    | nil => exact (hc : False).elim
    | cons c cs =>
      obtain ⟨h1, h2⟩ := hc
      refine LoopSteps.step _ ['\n'] _ c _ cs t (line_ending_lf _) ?_ h1 ?_ (ih h2 ht)
      · simp only [sepJoinWith, List.length_cons, List.length_append]
        omega
      · simp only [sepJoinWith, List.length_cons, List.length_append]
        omega

theorem cpuinfo_master {t : Input} {r : Input} {rs : List Input} {c : Cpu} {cs : List Cpu}
    (hc : chainOK t (r :: rs) (c :: cs)) (ht : TrailingStops t) :
    cpuinfo (joinWith '\n' t (r :: rs)) = some { cpus := c :: cs } := by
  obtain ⟨h1, h2⟩ := hc
  have hlist : cpus (r ++ sepJoinWith '\n' t rs) = .ok (c :: cs) t :=
    separated_list1_of h1 (chain_loopsteps h2 ht)
  simp [cpuinfo, joinWith, hlist]

theorem token_loopsteps {r : Input} (hr1 : stopP (fun c => cmem c token_chars) r)
    (hr2 : tagGo (" ".data) r = none) :
    ∀ {ts : List Input}, (∀ x ∈ ts, x ≠ [] ∧ ∀ c ∈ x, cmem c token_chars = true) →
    LoopSteps (tag (" ".data)) (many1P (fun c => cmem c token_chars))
      (sepJoinWith ' ' r ts) ts r := by
  intro ts
  induction ts with
  | nil =>
    intro _
    exact LoopSteps.stop_sep r (by simp [tag, hr2])
  | cons x ts ih =>
    intro h
    obtain ⟨hxne, hxch⟩ := h x (by simp)
    have hstop : stopP (fun c => cmem c token_chars) (sepJoinWith ' ' r ts) := by
      cases ts with
      | nil => exact hr1
      | cons y ys => show cmem ' ' token_chars = false; decide
    refine LoopSteps.step _ (" ".data) _ x _ ts r rfl ?_
        (many1P_split hxne hxch hstop) ?_ (ih (fun y hy => h y (by simp [hy])))
    · simp only [sepJoinWith, List.length_cons, List.length_append]
      omega
    · simp only [sepJoinWith, List.length_cons, List.length_append]
      omega

/-- Claim C6: for every input consisting of one or more well-formed
processor records, each separated from the next by exactly one blank line
and with nothing after the last record beyond its terminating line break,
`cpuinfo` returns a `Document` containing exactly those records in input
order; for empty input it fails. -/
theorem cpuinfo_records_in_order :
    (∀ (r : Input) (rs : List Input) (c : Cpu) (cs : List Cpu),
      chainOK [] (r :: rs) (c :: cs) →
      cpuinfo (joinWith '\n' [] (r :: rs)) = some { cpus := c :: cs }) ∧
    cpuinfo [] = none := by
  constructor
  · intro r rs c cs hc
    exact cpuinfo_master hc (Or.inl rfl)
  · rfl

/-- Witness for C6: a concrete one-record document parses to exactly that
record, and the hypotheses hold by evaluation. -/
theorem cpuinfo_records_in_order_witness :
    cpuinfo (joinWith '\n' [] [minRec]) = some { cpus := [minCpu] } :=
  cpuinfo_records_in_order.1 minRec [] minCpu [] ⟨rfl, trivial⟩

/-- Claim C1 (as amended): when one or more well-formed records are
followed by trailing content that does not fit the blank-line-then-record
pattern, `cpuinfo` does not fail: it succeeds, returning the `Document` of
the leading records and silently ignoring the trailing content. -/
theorem cpuinfo_trailing_content_ok (r : Input) (rs : List Input) (c : Cpu)
    (cs : List Cpu) (t : Input) (hc : chainOK t (r :: rs) (c :: cs))
    (ht : TrailingStops t) (hne : t ≠ []) :
    cpuinfo (joinWith '\n' t (r :: rs)) = some { cpus := c :: cs } :=
  cpuinfo_master hc ht

/-- Witness for C1: one concrete record followed by the trailing text
`xx` still parses successfully to the one record. -/
theorem cpuinfo_trailing_content_ok_witness :
    cpuinfo (joinWith '\n' (("xx").data) [minRec]) = some { cpus := [minCpu] } :=
  cpuinfo_trailing_content_ok minRec [] minCpu [] (("xx").data) ⟨rfl, trivial⟩
    (Or.inl rfl) (by decide)

/-- Counterexample to C1 as stated: a well-formed record followed by the
unparsable trailing text `junk` makes `cpuinfo` succeed with a `Document`,
not fail. -/
theorem cpuinfo_trailing_content_claim_false :
    cpuinfo (minRec ++ ("junk").data) = some { cpus := [minCpu] } := rfl

/-- Claim C2 (as amended): when the blank-line separator between two
well-formed records is omitted, `cpuinfo` does not fail: it succeeds and
returns a `Document` containing only the first record, ignoring the
second record's text entirely. -/
theorem cpuinfo_missing_separator_keeps_first (r1 r2 : Input) (c1 c2 : Cpu)
    (h1 : cpu (r1 ++ r2) = .ok c1 r2) (h2 : cpu r2 = .ok c2 []) :
    cpuinfo (r1 ++ r2) = some { cpus := [c1] } := by
  have hts : TrailingStops r2 := by
    cases r2 with
    | nil =>
      rw [cpu_nil_err] at h2
      exact absurd h2 (by simp)
    | cons c t =>
      left
      by_cases hcn : c = '\n'
      · subst hcn
        rw [cpu_head_err t (by decide)] at h2
        exact absurd h2 (by simp)
      · by_cases hcr : c = '\r'
        · subst hcr
          rw [cpu_head_err t (by decide)] at h2
          exact absurd h2 (by simp)
        · exact line_ending_other t hcn hcr
  exact @cpuinfo_master r2 r1 [] c1 [] ⟨h1, trivial⟩ hts

/-- Witness for C2: two concrete records concatenated without the blank
line parse to a document holding only the first of them. -/
theorem cpuinfo_missing_separator_keeps_first_witness :
    cpuinfo (minRec2 ++ minRec) = some { cpus := [minCpu2] } :=
  cpuinfo_missing_separator_keeps_first minRec2 minRec minCpu2 minCpu rfl rfl

/-- Counterexample to C2 as stated: for two concrete well-formed records
with the separator omitted, `cpuinfo` returns a `Document` containing only
the first record instead of failing. -/
theorem cpuinfo_missing_separator_claim_false :
    cpuinfo (minRec ++ minRec2) = some { cpus := [minCpu] } := rfl

theorem tagGo_self : ∀ (t r : Input), tagGo t (t ++ r) = some r := by
  intro t
  induction t with
  | nil => intro r; rfl
  | cons c t ih => intro r; simp [tagGo, ih]

theorem tag_self (t r : Input) : tag t (t ++ r) = .ok t r := by
  simp [tag, tagGo_self]

theorem digit_not_space {c : Char} (h : is_digit c = true) : is_space c = false := by
  by_contra hns
  rw [Bool.not_eq_false] at hns
  simp [is_space] at hns
  rcases hns with h1 | h1 <;> subst h1 <;> exact absurd h (by decide)

theorem space_not_digit {c : Char} (h : is_space c = true) : is_digit c = false := by
  simp [is_space] at h
  rcases h with h1 | h1 <;> subst h1 <;> decide

theorem alnum_not_space {c : Char} (h : is_alnum c = true) : is_space c = false := by
  by_contra hns
  rw [Bool.not_eq_false] at hns
  simp [is_space] at hns
  rcases hns with h1 | h1 <;> subst h1 <;> exact absurd h (by decide)

/-- Claim C3 (as amended): for a well-formed cache-size line declaring the
digit run `ds` (value `K`), the `cache_size` parser succeeds and stores
`K * 1024` reduced modulo `2 ^ 32`; the kilobyte-to-byte scaling happens
at parse time.  When `K * 1024` fits in 32 bits (e.g. `8192`, stored as
`8388608`) this is exactly `K * 1024`, but the `u32` multiplication wraps
for larger declared values. -/
theorem cache_size_scales_mod_u32 (ds r : Input) (hne : ds ≠ [])
    (hd : ∀ c ∈ ds, is_digit c = true) (hlt : digitsVal ds < 2 ^ 32) :
    cache_size (("cache size\t: ").data ++ (ds ++ ' ' :: 'K' :: 'B' :: '\n' :: r)) =
      .ok (digitsVal ds * 1024 % 2 ^ 32) r := by
  have hstop : stopP is_space (ds ++ ' ' :: 'K' :: 'B' :: '\n' :: r) := by
    cases ds with
    | nil => exact absurd rfl hne
    | cons d t => exact digit_not_space (hd d (by simp))
  have h1 : tag (("cache size").data)
      (("cache size").data ++ '\t' :: ':' :: ' ' :: (ds ++ ' ' :: 'K' :: 'B' :: '\n' :: r)) =
      .ok (("cache size").data) ('\t' :: ':' :: ' ' :: (ds ++ ' ' :: 'K' :: 'B' :: '\n' :: r)) :=
    tag_self _ _
  have h2 : separator (['\t'] ++ ':' :: ([' '] ++ (ds ++ ' ' :: 'K' :: 'B' :: '\n' :: r))) =
      .ok () (ds ++ ' ' :: 'K' :: 'B' :: '\n' :: r) :=
    separator_split (by decide) (by decide) hstop
  have h3 : complete_u32 (ds ++ ' ' :: 'K' :: 'B' :: '\n' :: r) =
      .ok (digitsVal ds) (' ' :: 'K' :: 'B' :: '\n' :: r) :=
    complete_u32_split hne hd (by decide : is_digit ' ' = false) hlt
  have h4 : tuple3 space0 (tag (("KB").data)) line_ending (' ' :: 'K' :: 'B' :: '\n' :: r) =
      .ok ([' '], (("KB").data, ['\n'])) r := rfl
  show pmap
      (terminated (separated_pair (tag (("cache size").data)) separator complete_u32)
        (tuple3 space0 (tag (("KB").data)) line_ending))
      (fun x => x.2 * 1024 % 2 ^ 32)
      ((("cache size").data) ++ '\t' :: ':' :: ' ' :: (ds ++ ' ' :: 'K' :: 'B' :: '\n' :: r)) =
    .ok (digitsVal ds * 1024 % 2 ^ 32) r
  have h5 := separated_pair_ok h1 h2 h3
  have h6 := terminated_ok h5 h4
  exact @pmap_ok (Input × Nat) Nat
    (terminated (separated_pair (tag (("cache size").data)) separator complete_u32)
      (tuple3 space0 (tag (("KB").data)) line_ending))
    (fun x => x.2 * 1024 % 2 ^ 32)
    ((("cache size").data) ++ '\t' :: ':' :: ' ' :: (ds ++ ' ' :: 'K' :: 'B' :: '\n' :: r))
    ((("cache size").data), digitsVal ds) r h6

/-- Witness for C3: the declared value 8192 is stored as 8388608 bytes. -/
theorem cache_size_scales_mod_u32_witness :
    cache_size (("cache size\t: 8192 KB\n").data) = .ok 8388608 [] :=
  cache_size_scales_mod_u32 (("8192").data) [] (by decide) (by decide) (by decide)

/-- Counterexample to C3 as stated: the cache-size line declaring 4194304
kilobytes parses successfully, but the stored value is 0, not
4194304 * 1024 (the `u32` product wraps). -/
theorem cache_size_overflow_wraps :
    cache_size (("cache size\t: 4194304 KB\n").data) = .ok 0 [] ∧
      4194304 * 1024 ≠ 0 :=
  ⟨rfl, by decide⟩

/-- Claim C4 (as amended): after the decoded integer the `cache_size`
parser accepts zero or more horizontal whitespace characters followed by
the literal `KB` and the line terminator (`space0` then `tag("KB")`), so
`8192KB` with no space before `KB` is accepted rather than rejected. -/
theorem cache_size_suffix_space0_kb (ws r : Input)
    (hw : ∀ c ∈ ws, is_space c = true) :
    cache_size (("cache size: 8192").data ++ (ws ++ ('K' :: 'B' :: '\n' :: r))) =
      .ok 8388608 r := by
  have hstop : stopP is_digit (ws ++ ('K' :: 'B' :: '\n' :: r)) := by
    cases ws with
    | nil => exact (by decide : is_digit 'K' = false)
    | cons w t => exact space_not_digit (hw w (by simp))
  have h1 : tag (("cache size").data)
      (("cache size").data ++ ':' :: ' ' :: (("8192").data ++ (ws ++ ('K' :: 'B' :: '\n' :: r)))) =
      .ok (("cache size").data) (':' :: ' ' :: (("8192").data ++ (ws ++ ('K' :: 'B' :: '\n' :: r)))) :=
    tag_self _ _
  have h2 : separator ([] ++ ':' :: ([' '] ++ (("8192").data ++ (ws ++ ('K' :: 'B' :: '\n' :: r))))) =
      .ok () (("8192").data ++ (ws ++ ('K' :: 'B' :: '\n' :: r))) :=
    separator_split (by decide) (by decide) (by decide : is_space '8' = false)
  have h3 : complete_u32 ((("8192").data) ++ (ws ++ ('K' :: 'B' :: '\n' :: r))) =
      .ok (digitsVal (("8192").data)) (ws ++ ('K' :: 'B' :: '\n' :: r)) :=
    complete_u32_split (by decide) (by decide) hstop (by decide)
  have h4a : space0 (ws ++ ('K' :: 'B' :: '\n' :: r)) = .ok ws ('K' :: 'B' :: '\n' :: r) :=
    space0_split hw (by decide : is_space 'K' = false)
  have h4 : tuple3 space0 (tag (("KB").data)) line_ending (ws ++ ('K' :: 'B' :: '\n' :: r)) =
      .ok (ws, (("KB").data, ['\n'])) r :=
    tuple3_ok h4a rfl rfl
  exact pmap_ok (terminated_ok (separated_pair_ok h1 h2 h3) h4)

/-- Witness for C4: a tab between the integer and `KB` is also accepted. -/
theorem cache_size_suffix_space0_kb_witness :
    cache_size (("cache size: 8192\tKB\n").data) = .ok 8388608 [] :=
  cache_size_suffix_space0_kb ['\t'] [] (by decide)

/-- Counterexample to C4 as stated: `8192KB` with no space before `KB`
parses successfully instead of failing with a malformed-value error. -/
theorem cache_size_no_space_accepted :
    cache_size (("cache size\t: 8192KB\n").data) = .ok 8388608 [] := rfl

/-- Claim C9: `power management:` with nothing between the colon and the
line break yields an absent value, and an alphanumeric token after the
colon yields a present value equal to that token. -/
theorem power_management_optional_value :
    (∀ r, power_management (("power management:").data ++ '\n' :: r) = .ok none r) ∧
    (∀ tok r, tok ≠ [] → (∀ c ∈ tok, is_alnum c = true) →
      power_management (("power management: ").data ++ (tok ++ '\n' :: r)) =
        .ok (some tok) r) := by
  constructor
  · intro r
    rfl
  · intro tok r hne htok
    have hsp : stopP is_space (tok ++ '\n' :: r) := by
      cases tok with
      | nil => exact absurd rfl hne
      | cons c t => exact alnum_not_space (htok c (by simp))
    have h1 : tag (("power management").data)
        (("power management").data ++ ':' :: ' ' :: (tok ++ '\n' :: r)) =
        .ok (("power management").data) (':' :: ' ' :: (tok ++ '\n' :: r)) :=
      tag_self _ _
    have h2 : separator ([] ++ ':' :: ([' '] ++ (tok ++ '\n' :: r))) =
        .ok () (tok ++ '\n' :: r) :=
      separator_split (by decide) (by decide) hsp
    have h3 : opt alphanumeric1 (tok ++ '\n' :: r) = .ok (some tok) ('\n' :: r) :=
      opt_of_ok (many1P_split hne htok (by decide : is_alnum '\n' = false))
    exact field_value_ok h1 h2 h3 (line_ending_lf r)

/-- Witness for C9: `performance` after the colon is returned verbatim. -/
theorem power_management_optional_value_witness :
    power_management (("power management: performance\n").data) =
      .ok (some (("performance").data)) [] :=
  power_management_optional_value.2 (("performance").data) [] (by decide) (by decide)

/-- Claim C10: for the decimal `processor` field and the hexadecimal
`microcode` field, a syntactically valid numeral whose value exceeds
`2 ^ 32 - 1` makes the field parser fail; the decoded value is never
reduced modulo `2 ^ 32`. -/
theorem integer_fields_overflow_err :
    (∀ ds r, ds ≠ [] → (∀ c ∈ ds, is_digit c = true) → ¬ digitsVal ds < 2 ^ 32 →
      stopP is_digit r →
      processor (("processor: ").data ++ (ds ++ r)) = .err) ∧
    (∀ ds r, ds ≠ [] → (∀ c ∈ ds, cmem c hex_chars = true) → ¬ hexVal ds < 2 ^ 32 →
      stopP (fun c => cmem c hex_chars) r →
      microcode (("microcode: 0x").data ++ (ds ++ r)) = .err) := by
  constructor
  · intro ds r hne hd hge hs
    have hstop : stopP is_space (ds ++ r) := by
      cases ds with
      | nil => exact absurd rfl hne
      | cons d t => exact digit_not_space (hd d (by simp))
    have h1 : tag (("processor").data) ((("processor").data) ++ ':' :: ' ' :: (ds ++ r)) =
        .ok (("processor").data) (':' :: ' ' :: (ds ++ r)) := tag_self _ _
    have h2 : separator ([] ++ ':' :: ([' '] ++ (ds ++ r))) = .ok () (ds ++ r) :=
      separator_split (by decide) (by decide) hstop
    exact field_value_err_val h1 h2 (complete_u32_overflow hne hd hs hge)
  · intro ds r hne hd hge hs
    have h1 : tag (("microcode").data)
        ((("microcode").data) ++ ':' :: ' ' :: ('0' :: 'x' :: (ds ++ r))) =
        .ok (("microcode").data) (':' :: ' ' :: ('0' :: 'x' :: (ds ++ r))) := tag_self _ _
    have h2 : separator ([] ++ ':' :: ([' '] ++ ('0' :: 'x' :: (ds ++ r)))) =
        .ok () ('0' :: 'x' :: (ds ++ r)) :=
      separator_split (by decide) (by decide) (by decide : is_space '0' = false)
    have h3 : hexadecimal ('0' :: 'x' :: (ds ++ r)) = .err :=
      map_res_none
        (preceded_ok (alt2_ok1 (tag_self (("0x").data) (ds ++ r)))
          (many1P_split hne hd hs))
        (if_neg hge)
    exact field_value_err_val h1 h2 h3

/-- Witness for C10: the decimal numeral 4294967296 and the hexadecimal
numeral 0x100000000 (both equal to `2 ^ 32`) are rejected. -/
theorem integer_fields_overflow_err_witness :
    processor (("processor: 4294967296\n").data) = .err ∧
    microcode (("microcode: 0x100000000\n").data) = .err :=
  ⟨integer_fields_overflow_err.1 (("4294967296").data) ['\n'] (by decide) (by decide)
      (by decide) (by decide : is_digit '\n' = false),
   integer_fields_overflow_err.2 (("100000000").data) ['\n'] (by decide) (by decide)
      (by decide) (by decide : cmem '\n' hex_chars = false)⟩

/-- Claim C5 (as amended): the hexadecimal decoder succeeds exactly on a
case-insensitive `0x` prefix followed by one or more hexadecimal digits
whose value fits in 32 bits, decoding the digit run to that value
(`0xf0` yields 240, `0XAB` yields 171); it fails when no hexadecimal
digit follows the prefix, and also when the digits' value is at least
`2 ^ 32` (the `u32` conversion in `map_res` rejects it). -/
theorem hexadecimal_prefix_digits_bounded :
    (∀ ds r, ds ≠ [] → (∀ c ∈ ds, cmem c hex_chars = true) →
      stopP (fun c => cmem c hex_chars) r → hexVal ds < 2 ^ 32 →
      hexadecimal ('0' :: 'x' :: (ds ++ r)) = .ok (hexVal ds) r ∧
      hexadecimal ('0' :: 'X' :: (ds ++ r)) = .ok (hexVal ds) r) ∧
    (∀ r, stopP (fun c => cmem c hex_chars) r →
      hexadecimal ('0' :: 'x' :: r) = .err ∧ hexadecimal ('0' :: 'X' :: r) = .err) := by
  constructor
  · intro ds r hne hd hs hlt
    constructor
    · exact map_res_some
        (preceded_ok (alt2_ok1 (tag_self (("0x").data) (ds ++ r)))
          (many1P_split hne hd hs))
        (if_pos hlt)
    · have hX : alt2 (tag (("0x").data)) (tag (("0X").data)) ('0' :: 'X' :: (ds ++ r)) =
          .ok (("0X").data) (ds ++ r) :=
        (alt2_err1 rfl).trans rfl
      exact map_res_some (preceded_ok hX (many1P_split hne hd hs)) (if_pos hlt)
  · intro r hs
    constructor
    · exact map_res_err
        (preceded_err2 (alt2_ok1 (tag_self (("0x").data) r)) (many1P_stop hs))
    · have hX : alt2 (tag (("0x").data)) (tag (("0X").data)) ('0' :: 'X' :: r) =
          .ok (("0X").data) r :=
        (alt2_err1 rfl).trans rfl
      exact map_res_err (preceded_err2 hX (many1P_stop hs))

/-- Witness for C5: `0xf0` and `0Xf0` decode to 240, and a prefix with no
digits after it is rejected. -/
theorem hexadecimal_prefix_digits_bounded_witness :
    (hexadecimal (("0xf0").data) = .ok 240 [] ∧
      hexadecimal (("0Xf0").data) = .ok 240 []) ∧
    (hexadecimal (("0x").data) = .err ∧ hexadecimal (("0X").data) = .err) :=
  ⟨hexadecimal_prefix_digits_bounded.1 (("f0").data) [] (by decide) (by decide)
      trivial (by decide),
   hexadecimal_prefix_digits_bounded.2 [] trivial⟩

/-- Counterexample to C5 as stated: `0x100000000` begins with the prefix
followed by one or more hexadecimal digits yet the decoder fails, because
the digits' value does not fit in a `u32`. -/
theorem hexadecimal_overflow_errs :
    hexadecimal (("0x100000000").data) = .err ∧
      ((("100000000").data).all (fun c => cmem c hex_chars) = true) :=
  ⟨rfl, by decide⟩

/-- Claim C8: the token-list decoder applied to zero or more single-space
separated tokens over the class `[a-z0-9_]` returns exactly those tokens,
in order, with their exact text, preserving duplicates; a list field with
an empty value (line break immediately after the separator) yields zero
tokens. -/
theorem list_preserves_tokens :
    (∀ (ts : List Input) (r : Input),
      (∀ x ∈ ts, x ≠ [] ∧ ∀ c ∈ x, cmem c token_chars = true) →
      stopP (fun c => cmem c token_chars) r → tagGo ((" ").data) r = none →
      list (joinWith ' ' r ts) = .ok ts r) ∧
    (∀ r, flags ((("flags:").data) ++ '\n' :: r) = .ok [] r) := by
  constructor
  · intro ts r h hr1 hr2
    cases ts with
    | nil =>
      show list r = .ok [] r
      exact separated_list0_of_err (many1P_stop hr1)
    | cons x xs =>
      obtain ⟨hxne, hxch⟩ := h x (by simp)
      have hstop : stopP (fun c => cmem c token_chars) (sepJoinWith ' ' r xs) := by
        cases xs with
        | nil => exact hr1
        | cons y ys => show cmem ' ' token_chars = false; decide
      exact separated_list0_of_ok (many1P_split hxne hxch hstop)
        (token_loopsteps hr1 hr2 (fun y hy => h y (by simp [hy])))
  · intro r
    rfl

/-- Witness for C8: the duplicate-containing token list `ab c ab` is
returned verbatim in order, and an empty `flags` value yields the empty
list. -/
theorem list_preserves_tokens_witness :
    list (joinWith ' ' ['\n'] [("ab").data, ("c").data, ("ab").data]) =
      .ok [("ab").data, ("c").data, ("ab").data] ['\n'] ∧
    flags (("flags:\n").data) = .ok [] [] :=
  ⟨list_preserves_tokens.1 [("ab").data, ("c").data, ("ab").data] ['\n']
      (by decide) (by decide : cmem '\n' token_chars = false) (by decide),
   list_preserves_tokens.2 []⟩

theorem tagGo_some_inv : ∀ {t i r : Input}, tagGo t i = some r → i = t ++ r := by
  intro t
  induction t with
  | nil =>
    intro i r h
    simp [tagGo] at h
    simp [h]
  | cons c t ih =>
    intro i r h
    cases i with
    | nil => simp [tagGo] at h
    | cons d i =>
      by_cases hc : c = d
      · subst hc
        simp [tagGo] at h
        simp [ih h]
      · simp [tagGo, hc] at h

theorem boolean_ok_inv {i : Input} {b : Bool} {m : Input} (h : boolean i = .ok b m) :
    i = (if b then ("yes").data else ("no").data) ++ m := by
  cases h1 : tagGo (("yes").data) i with
  | some r =>
    have hy : tag (("yes").data) i = .ok (("yes").data) r := by simp [tag, h1]
    have hb : boolean i = .ok true r := pmap_ok (alt2_ok1 hy)
    rw [h] at hb
    simp at hb
    obtain ⟨hb', hm⟩ := hb
    subst hb'
    subst hm
    exact tagGo_some_inv h1
  | none =>
    have he : tag (("yes").data) i = .err := by simp [tag, h1]
    cases h2 : tagGo (("no").data) i with
    | some r =>
      have hn : tag (("no").data) i = .ok (("no").data) r := by simp [tag, h2]
      have hb : boolean i = .ok false r := pmap_ok ((alt2_err1 he).trans hn)
      rw [h] at hb
      simp at hb
      obtain ⟨hb', hm⟩ := hb
      subst hb'
      subst hm
      exact tagGo_some_inv h2
    | none =>
      have hb : boolean i = .err :=
        pmap_err ((alt2_err1 he).trans (by simp [tag, h2]))
      rw [h] at hb
      exact absurd hb (by simp)

theorem boolean_no_fail (i : Input) : boolean i ≠ .fail := by
  intro h
  cases h1 : tagGo (("yes").data) i with
  | some r =>
    have hy : tag (("yes").data) i = .ok (("yes").data) r := by simp [tag, h1]
    have hb : boolean i = .ok true r := pmap_ok (alt2_ok1 hy)
    rw [h] at hb
    exact absurd hb (by simp)
  | none =>
    have he : tag (("yes").data) i = .err := by simp [tag, h1]
    cases h2 : tagGo (("no").data) i with
    | some r =>
      have hn : tag (("no").data) i = .ok (("no").data) r := by simp [tag, h2]
      have hb : boolean i = .ok false r := pmap_ok ((alt2_err1 he).trans hn)
      rw [h] at hb
      exact absurd hb (by simp)
    | none =>
      have hb : boolean i = .err :=
        pmap_err ((alt2_err1 he).trans (by simp [tag, h2]))
      rw [h] at hb
      exact absurd hb (by simp)

theorem field_rejection_aux {tok m w : Input} (hw : ∀ c ∈ w, ¬ c = '\n')
    (hcrlf : ∀ c ∈ tok, ¬ c = '\n' ∧ ¬ c = '\r') (hne : tok ≠ w)
    (heq : tok ++ ['\n'] = w ++ m) : line_ending m = .err := by
  rcases List.append_eq_append_iff.mp heq with ⟨a, hw2, hnl⟩ | ⟨c', htok, hm⟩
  · cases a with
    | nil =>
      simp at hw2
      exact absurd hw2.symm hne
    | cons e a2 =>
      have hmem : ('\n' : Char) ∈ w := by
        have he : e = '\n' := by
          have := congrArg (fun l => l.head?) hnl
          simpa using this.symm
        rw [hw2, he]
        exact List.mem_append_right _ (by simp)
      exact absurd rfl (hw '\n' hmem)
  · cases c' with
    | nil =>
      simp at htok
      exact absurd htok hne
    | cons e t' =>
      have hmem : e ∈ tok := by
        rw [htok]
        exact List.mem_append_right _ (by simp)
      have hc := hcrlf e hmem
      rw [hm]
      exact line_ending_other _ hc.1 hc.2

/-- Claim C7 (as amended): the boolean decoder matches a literal `yes` or
`no` prefix of its input (`yes` decoding to true, `no` to false) and
fails recoverably when neither is a prefix; it does not require the token
to end there, so on the token `nope` it succeeds consuming `no`.  At the
field level the required line terminator rejects any value token other
than exactly `yes` or `no` (for a token that does not start with
horizontal whitespace, which the separator would absorb). -/
theorem boolean_prefix_and_field_rejection :
    (∀ r, boolean ((("yes").data) ++ r) = .ok true r ∧
      boolean ((("no").data) ++ r) = .ok false r) ∧
    (∀ i, tagGo (("yes").data) i = none → tagGo (("no").data) i = none →
      boolean i = .err) ∧
    (∀ tok, stopP is_space tok → (∀ c ∈ tok, ¬ c = '\n' ∧ ¬ c = '\r') →
      tok ≠ ("yes").data → tok ≠ ("no").data →
      fpu ((("fpu: ").data) ++ (tok ++ ['\n'])) = .err) := by
  refine ⟨fun r => ⟨rfl, rfl⟩,
    fun i h1 h2 =>
      pmap_err ((alt2_err1 (by simp [tag, h1])).trans (by simp [tag, h2])), ?_⟩
  intro tok hsp0 hcrlf hyes hno
  have h1 : tag (("fpu").data) ((("fpu").data) ++ ':' :: ' ' :: (tok ++ ['\n'])) =
      .ok (("fpu").data) (':' :: ' ' :: (tok ++ ['\n'])) := tag_self _ _
  have hspstop : stopP is_space (tok ++ ['\n']) := by
    cases tok with
    | nil => exact (by decide : is_space '\n' = false)
    | cons c t => exact hsp0
  have h2 : separator ([] ++ ':' :: ([' '] ++ (tok ++ ['\n']))) = .ok () (tok ++ ['\n']) :=
    separator_split (by decide) (by decide) hspstop
  cases hb : boolean (tok ++ ['\n']) with
  | err => exact field_value_err_val h1 h2 hb
  | fail => exact absurd hb (boolean_no_fail _)
  | ok b m =>
    have heq := boolean_ok_inv hb
    have hle : line_ending m = .err := by
      cases b with
      | true => exact field_rejection_aux (by decide) hcrlf hyes heq
      | false => exact field_rejection_aux (by decide) hcrlf hno heq
    exact field_value_err_term h1 h2 hb hle

/-- Witness for C7: `yes` decodes to true, and the `fpu` field line with
the value token `maybe` is rejected. -/
theorem boolean_prefix_and_field_rejection_witness :
    boolean ((("yes").data) ++ []) = .ok true [] ∧
    fpu (("fpu: maybe\n").data) = .err :=
  ⟨(boolean_prefix_and_field_rejection.1 []).1,
   boolean_prefix_and_field_rejection.2.2 (("maybe").data)
     (by decide : is_space 'm' = false) (by decide) (by decide) (by decide)⟩

/-- Counterexample to C7 as stated: on the token `nope` (any token other
than the two literals) the boolean decoder does not fail: it succeeds,
decoding the `no` prefix to false and leaving `pe` unconsumed. -/
theorem boolean_token_prefix_claim_false :
    boolean (("nope").data) = .ok false (("pe").data) := rfl
